import Mathlib

/-!
Shallow embedding of `titanic.py` (ships CLI): the fuzzy ship-name search
core `search_ship`, its median helper `get_median_ships_scores`, and the
`top_countries` aggregation command.

Modelling conventions:
* A Python record dict is an association list `Record` in insertion order;
  `dict.get` is first-match lookup.
* A Python dict used as a map built by assignment (`ScoreMap`,
  `countries_dict`) is an association list with `dictInsert`: assignment to
  an existing key overwrites the value in place (Python dicts keep the
  original key position), a new key is appended (insertion order).
* Python exceptions are `Except PyErr`: `indexError` models
  `scores_list[-1]` on an empty list in the median helper,
  `attributeError` models `None.lower()` when a record lacks `SHIPNAME`,
  `valueError` models the explicit raise in `top_countries`.
* `fuzz.ratio` is an external library call; `search_ship` is parameterised
  over the scorer `ratio : String → String → Nat`.  Hypotheses on `ratio`
  (range in [0,100], `ratio s s = 100`) are taken from the spec's Similarity
  Scorer contract where a claim needs them.
* Python `sorted(..., key=..., reverse=True)` is a stable descending sort,
  embedded as the stable insertion sort `sortDesc`; `list.sort()` on numbers
  is `sortAsc`.
* Returning a value is `retVal = some s`; falling off the end of the
  function (Python `None`) is `retVal = none`.  `print` side channels are
  collected in `notices`.
-/

namespace Titanic

/-- One ship record: field name to value, in the record's natural field
order (`ship_dict.items()`). -/
abbrev Record := List (String × String)

/-- Python `dict.get(k)`: the value stored under `k`, or `None`. -/
def dictGet (r : Record) (k : String) : Option String :=
  (r.find? (fun p => p.1 == k)).map (fun p => p.2)

/-- Python `d[k] = v` on a dict represented as an assoc list: overwrite in
place if the key is present (the original key object keeps its position),
else append the new binding. -/
def dictInsert {κ ν : Type} [BEq κ] (d : List (κ × ν)) (k : κ) (v : ν) :
    List (κ × ν) :=
  if d.any (fun p => p.1 == k) then
    d.map (fun p => if p.1 == k then (p.1, v) else p)
  else
    d ++ [(k, v)]

/-- Python exceptions raised by the modelled code. -/
inductive PyErr where
  | indexError
  | valueError
  | attributeError
  deriving DecidableEq

/-- Insert into an ascending-sorted list (helper for `sortAsc`). -/
def insertAsc (x : Nat) : List Nat → List Nat
  | [] => [x]
  | y :: ys => if x ≤ y then x :: y :: ys else y :: insertAsc x ys

/-- Python `list.sort()` on numbers: ascending sort. -/
def sortAsc (l : List Nat) : List Nat := l.foldr insertAsc []

/-- Insert into a descending-sorted (by second component) list, after every
element with a score ≥ the new one (helper for `sortDesc`). -/
def insertDesc {κ : Type} (x : κ × Nat) : List (κ × Nat) → List (κ × Nat)
  | [] => [x]
  | y :: ys => if x.2 ≤ y.2 then y :: insertDesc x ys else x :: y :: ys

/-- Python `sorted(items, key=lambda item: item[1], reverse=True)`: stable
descending sort by the second component.  Processing the input left to
right and inserting each element after all elements with a ≥ score keeps
original order among ties. -/
def sortDesc {κ : Type} (l : List (κ × Nat)) : List (κ × Nat) :=
  l.foldl (fun acc x => insertDesc x acc) []

/-- `get_median_ships_scores(ships_scores)` from `titanic.py`: list the
dict's values, sort ascending, return the middle element (odd length) or
the mean of the two central elements (even length).  On the empty dict the
even branch evaluates `scores_list[length // 2 - 1]`, i.e. Python
`scores_list[-1]` on an empty list: an `IndexError`, modelled as `none`
(Lean's `0 / 2 - 1 = 0` index misses the empty list exactly there; for even
length ≥ 2 both lookups are in range). -/
def get_median_ships_scores (ships_scores : List (String × Nat)) :
    Option ℚ :=
  let scores_list := sortAsc (ships_scores.map (fun p => p.2))
  let length := scores_list.length
  if length % 2 == 0 then
    match scores_list.get? (length / 2 - 1), scores_list.get? (length / 2) with
    | some a, some b => some (((a : ℚ) + (b : ℚ)) / 2)
    | _, _ => none
  else
    (scores_list.get? (length / 2)).map (fun a => (a : ℚ))

/-- Python `str.lower()` (the names in this dataset are ASCII): lowercase
every character. -/
def pyLower (s : String) : String := String.mk (s.data.map Char.toLower)

/-- `ship.get('SHIPNAME')`. -/
def shipnameOf (r : Record) : Option String := dictGet r "SHIPNAME"

/-- `name = " ".join(commands[1:])`. -/
def queryOf (commands : List String) : String :=
  " ".intercalate (commands.drop 1)

/-- The ScoreMap loop of `search_ship`:
`for ship_name in (ship.get('SHIPNAME') for ship in ships):`
`    scores[ship_name] = fuzz.ratio(name.lower(), ship_name.lower())`.
A record without `SHIPNAME` makes `ship_name.lower()` raise
`AttributeError` (`None` has no `lower`). -/
def buildScores (ratio : String → String → Nat) (name : String) :
    List Record → List (String × Nat) → Except PyErr (List (String × Nat))
  | [], acc => .ok acc
  | ship :: rest, acc =>
    match shipnameOf ship with
    | none => .error .attributeError
    | some sn =>
        buildScores ratio name rest
          (dictInsert acc sn (ratio (pyLower name) (pyLower sn)))

/-- `"\n".join([f"{key}: {value}" for key, value in ship_dict.items()])`. -/
def formatRecord (r : Record) : String :=
  "\n".intercalate (r.map (fun p => p.1 ++ ": " ++ p.2))

/-- `[ship for ship in ships if name.lower() == ship.get('SHIPNAME').lower()]`
(reached only after the ScoreMap loop succeeded, so every record has a
`SHIPNAME`). -/
def exactFilter (name : String) (ships : List Record) : List Record :=
  ships.filter (fun ship =>
    match shipnameOf ship with
    | some sn => pyLower name == pyLower sn
    | none => false)

/-- What one `search_ship` call produces: the Python return value (`none`
models falling off the end of the function, Python `None`) and the `print`
side-channel notices, in emission order. -/
structure SearchResult where
  retVal : Option String
  notices : List String
  deriving DecidableEq

/-- The body of `search_ship` after the ScoreMap loop: the exact-match
check over `scores`, else the median-thresholded recommendation list.
Factored out so that the same code can be run with the store threaded
explicitly (`search_ship_call`). -/
def searchBody (name : String) (store : List Record)
    (scores : List (String × Nat)) : Except PyErr SearchResult :=
  if scores.any (fun p => p.2 == 100) then
    .ok ⟨(exactFilter name store).head?.map formatRecord, []⟩
  else
    match get_median_ships_scores scores with
    | none => .error .indexError
    | some median_score =>
      let recommended_names :=
        scores.filter (fun p => decide (median_score * 2 < (p.2 : ℚ)))
      let recommended_names_desc := (sortDesc recommended_names).take 5
      let head_notice :=
        if median_score = 0
        then ["\x27" ++ name ++ "\x27 ship not found."] else []
      .ok ⟨some ("\n".intercalate (recommended_names_desc.map (fun p => p.1))),
           head_notice ++ ["Ship \x27" ++ name ++ "\x27 not found, do you mean:"]⟩

/-- `search_ship(data)` from `titanic.py`, parameterised over the external
scorer `fuzz.ratio`.  The `data = [ships, commands]` unpacking is inlined
into the two explicit arguments. -/
def search_ship (ratio : String → String → Nat) (ships : List Record)
    (commands : List String) : Except PyErr SearchResult :=
  let name := queryOf commands
  match buildScores ratio name ships [] with
  | .error e => .error e
  | .ok scores => searchBody name ships scores

/-- The ScoreMap loop again, but threading the traversed store through
explicitly: each iteration reads one record and passes it back unchanged
(no statement of the source assigns to `ships`, to a record, or to a record
field).  Used to state that `search_ship` never mutates the store. -/
def readShips (ratio : String → String → Nat) (name : String) :
    List Record → List (String × Nat) →
    Except PyErr (List Record × List (String × Nat))
  | [], acc => .ok ([], acc)
  | ship :: rest, acc =>
    match shipnameOf ship with
    | none => .error .attributeError
    | some sn =>
        match readShips ratio name rest
            (dictInsert acc sn (ratio (pyLower name) (pyLower sn))) with
        | .error e => .error e
        | .ok (rest2, scores) => .ok (ship :: rest2, scores)

/-- A `search_ship` call observed together with the record store as it
stands after the call: the scoring loop hands the store back via
`readShips`, and the rest of the body only reads it. -/
def search_ship_call (ratio : String → String → Nat) (ships : List Record)
    (commands : List String) : Except PyErr (SearchResult × List Record) :=
  let name := queryOf commands
  match readShips ratio name ships [] with
  | .error e => .error e
  | .ok (store2, scores) =>
      (searchBody name store2 scores).map (fun r => (r, store2))

/-- Render an optional country name the way a Python f-string renders a
`dict.get` result (`None` when the field is absent). -/
def pyStr : Option String → String
  | none => "None"
  | some s => s

/-- Python `l[:n]` for an `int` bound: a nonnegative bound keeps the first
`n` elements; a negative bound drops the last `|n|` elements. -/
def pySliceTo {α : Type} (l : List α) (n : Int) : List α :=
  if 0 ≤ n then l.take n.toNat else l.take (l.length - (-n).toNat)

/-- `countries_list` / `countries_dict` of `top_countries`: each record's
`COUNTRY` and the dict mapping each country to its number of occurrences,
in first-occurrence order. -/
def countriesDictOf (ships : List Record) : List (Option String × Nat) :=
  let countries_list := ships.map (fun s => dictGet s "COUNTRY")
  countries_list.foldl
    (fun d c => dictInsert d c (countries_list.count c)) []

/-- `f"{country}: {numbers_of_ships}"` for one entry. -/
def renderCountry (p : Option String × Nat) : String :=
  pyStr p.1 ++ ": " ++ toString p.2

/-- `top_countries(data)` from `titanic.py`, from the point where
`int(num_countries)` has already produced the integer argument: raise
`ValueError` when it is 0 or -1, otherwise rank countries by ship count
(descending, stable) and slice with `[:num_countries]`. -/
def top_countries (ships : List Record) (num_countries : Int) :
    Except PyErr String :=
  if num_countries = 0 ∨ num_countries = -1 then
    .error .valueError
  else
    let top_n_countries := pySliceTo (sortDesc (countriesDictOf ships)) num_countries
    .ok ("\n".intercalate (top_n_countries.map renderCountry))

/-! ### Concrete fixtures used to instantiate the theorems

The scorer `fuzz.ratio` is an external library, not part of this
repository; the concrete scorers below are modelled from the spec's
Similarity Scorer contract (integer in [0,100], case-insensitive, 100 on
identical strings) together with the library's documented rounding
behaviour, and record the library's actual values at the few inputs the
concrete theorems exercise. -/

/-- Scenario-A store: a single record named DISNEY DREAM. -/
def disneyStore : List Record := [[("SHIPNAME", "DISNEY DREAM")]]

/-- Modelled from the spec: the Similarity Scorer (the external
`fuzz.ratio`) at the Scenario-A inputs; the library's actual value is
`fuzz.ratio("disney", "disney dream") = 67`, and identical strings score
100. -/
def ratioDisney : String → String → Nat := fun a b =>
  if a == b then 100
  else if (a == "disney" && b == "disney dream")
          || (a == "disney dream" && b == "disney") then 67
  else 0

/-- One hundred lowercase a characters. -/
def aHundred : String := String.mk (List.replicate 100 'a')

/-- One hundred uppercase A characters. -/
def aHundredUpper : String := String.mk (List.replicate 100 'A')

/-- One hundred a characters followed by a b. -/
def aHundredB : String := aHundred ++ "b"

/-- A store whose single ship name scores 100 against a query it does not
equal (see `ratioNear`). -/
def nearMissStore : List Record := [[("SHIPNAME", aHundredUpper)]]

/-- Modelled from the spec: the Similarity Scorer (the external
`fuzz.ratio`) rounds `100 · ratio` to the nearest integer, so the two
distinct strings `aHundredB` and `aHundred` score
`round(100 · 200/201) = 100` without being equal (a normalized
edit-distance ratio of near-identical ~100-character strings). -/
def ratioNear : String → String → Nat := fun a b =>
  if a == b then 100
  else if (a == aHundredB && b == aHundred)
          || (a == aHundred && b == aHundredB) then 100
  else 0

/-- Three-ship demonstration store. -/
def demoStore : List Record :=
  [[("SHIPNAME", "ALPHA")], [("SHIPNAME", "BETA")], [("SHIPNAME", "GAMMA")]]

/-- A demonstration scorer for a query matching none of `demoStore`'s
names. -/
def demoRatio : String → String → Nat := fun _ b =>
  if b == "alpha" then 90 else if b == "beta" then 30 else 10

/-- The ScoreMap `demoRatio` produces over `demoStore`. -/
def demoScores : List (String × Nat) :=
  [("ALPHA", 90), ("BETA", 30), ("GAMMA", 10)]

/-- Scenario-C store: two records sharing the name ALPHA with different
other fields. -/
def twinStore : List Record :=
  [[("SHIPNAME", "ALPHA"), ("X", "1")], [("SHIPNAME", "ALPHA"), ("X", "2")]]

/-- A scorer that scores 100 exactly on identical strings. -/
def eqRatio : String → String → Nat := fun a b => if a == b then 100 else 0

/-- A store with four distinct countries for the `top_countries` witness. -/
def countryStore : List Record :=
  [[("COUNTRY", "A")], [("COUNTRY", "A")], [("COUNTRY", "B")],
   [("COUNTRY", "C")], [("COUNTRY", "D")]]

/-! ### Lemmas about the two sorts -/

theorem insertAsc_perm (x : Nat) (l : List Nat) :
    (insertAsc x l).Perm (x :: l) := by
  induction l with
  | nil => simp [insertAsc]
  | cons y ys ih =>
    by_cases h : x ≤ y
    · simp [insertAsc, h]
    · simp only [insertAsc, if_neg h]
      exact (ih.cons y).trans (List.Perm.swap x y ys)

theorem sortAsc_perm (l : List Nat) : (sortAsc l).Perm l := by
  induction l with
  | nil => simp [sortAsc]
  | cons x xs ih =>
    have : sortAsc (x :: xs) = insertAsc x (sortAsc xs) := rfl
    rw [this]
    exact (insertAsc_perm x (sortAsc xs)).trans (ih.cons x)

theorem insertAsc_sorted (x : Nat) (l : List Nat)
    (h : l.Pairwise (· ≤ ·)) : (insertAsc x l).Pairwise (· ≤ ·) := by
  induction l with
  | nil => simp [insertAsc]
  | cons y ys ih =>
    rw [List.pairwise_cons] at h
    by_cases hxy : x ≤ y
    · rw [insertAsc, if_pos hxy, List.pairwise_cons]
      refine ⟨fun b hb => ?_, List.Pairwise.cons h.1 h.2⟩
      rcases List.mem_cons.mp hb with rfl | hb
      · exact hxy
      · exact le_trans hxy (h.1 _ hb)
    · rw [insertAsc, if_neg hxy, List.pairwise_cons]
      refine ⟨fun b hb => ?_, ih h.2⟩
      rcases List.mem_cons.mp ((insertAsc_perm x ys).mem_iff.mp hb) with rfl | hb2
      · exact le_of_not_le hxy
      · exact h.1 _ hb2

theorem sortAsc_sorted (l : List Nat) : (sortAsc l).Pairwise (· ≤ ·) := by
  induction l with
  | nil => simp [sortAsc]
  | cons x xs ih => exact insertAsc_sorted x (sortAsc xs) ih

theorem sortAsc_eq_of_perm {l₁ l₂ : List Nat} (h : l₁.Perm l₂) :
    sortAsc l₁ = sortAsc l₂ := by
  refine List.eq_of_perm_of_sorted ?_ (sortAsc_sorted l₁) (sortAsc_sorted l₂)
  exact ((sortAsc_perm l₁).trans h).trans (sortAsc_perm l₂).symm

theorem insertDesc_perm {κ : Type} (x : κ × Nat) (l : List (κ × Nat)) :
    (insertDesc x l).Perm (x :: l) := by
  induction l with
  | nil => simp [insertDesc]
  | cons y ys ih =>
    by_cases h : x.2 ≤ y.2
    · simp only [insertDesc, if_pos h]
      exact (ih.cons y).trans (List.Perm.swap x y ys)
    · simp [insertDesc, if_neg h]

theorem insertDesc_sorted {κ : Type} (x : κ × Nat) (l : List (κ × Nat))
    (h : l.Pairwise (fun a b => b.2 ≤ a.2)) :
    (insertDesc x l).Pairwise (fun a b => b.2 ≤ a.2) := by
  induction l with
  | nil => simp [insertDesc]
  | cons y ys ih =>
    rw [List.pairwise_cons] at h
    by_cases hxy : x.2 ≤ y.2
    · rw [insertDesc, if_pos hxy, List.pairwise_cons]
      refine ⟨fun b hb => ?_, ih h.2⟩
      rcases List.mem_cons.mp ((insertDesc_perm x ys).mem_iff.mp hb) with rfl | hb2
      · exact hxy
      · exact h.1 _ hb2
    · rw [insertDesc, if_neg hxy, List.pairwise_cons]
      refine ⟨fun b hb => ?_, List.Pairwise.cons h.1 h.2⟩
      rcases List.mem_cons.mp hb with rfl | hb
      · exact le_of_not_le hxy
      · exact le_trans (h.1 _ hb) (le_of_not_le hxy)

/-- Stability of one insertion: in a descending-sorted list, the inserted
element lands after every element with the same score. -/
theorem insertDesc_filter {κ : Type} (s : Nat) (x : κ × Nat)
    (l : List (κ × Nat)) (h : l.Pairwise (fun a b => b.2 ≤ a.2)) :
    (insertDesc x l).filter (fun p => p.2 == s)
      = if x.2 == s then l.filter (fun p => p.2 == s) ++ [x]
        else l.filter (fun p => p.2 == s) := by
  induction l with
  | nil => by_cases hx : x.2 == s <;> simp [insertDesc, List.filter_cons, hx]
  | cons y ys ih =>
    rw [List.pairwise_cons] at h
    by_cases hxy : x.2 ≤ y.2
    · rw [insertDesc, if_pos hxy]
      by_cases hy : y.2 == s
      · simp only [List.filter_cons, hy, if_pos, ih h.2]
        by_cases hx : x.2 == s <;> simp [hx]
      · simp only [List.filter_cons, hy, Bool.false_eq_true, if_false, ih h.2]
    · rw [insertDesc, if_neg hxy]
      have hx2 : x.2 == s → ∀ z ∈ y :: ys, ¬ (z.2 == s) := by
        intro hx z hz hzs
        have hzy : z.2 ≤ y.2 := by
          rcases List.mem_cons.mp hz with rfl | hz
          · exact le_refl _
          · exact h.1 _ hz
        have h1 : x.2 = s := beq_iff_eq.mp hx
        have h2 : z.2 = s := beq_iff_eq.mp hzs
        exact hxy (h1 ▸ h2 ▸ hzy)
      by_cases hx : x.2 == s
      · have hfil : (y :: ys).filter (fun p => p.2 == s) = [] := by
          rw [List.filter_eq_nil_iff]
          intro z hz
          exact fun hzs => hx2 hx z hz hzs
        rw [if_pos hx, hfil, List.filter_cons, if_pos hx, hfil]
        rfl
      · rw [if_neg hx, List.filter_cons, if_neg hx]

theorem sortDescAux_perm {κ : Type} : ∀ (l acc : List (κ × Nat)),
    (l.foldl (fun acc x => insertDesc x acc) acc).Perm (acc ++ l)
  | [], acc => by simp
  | x :: l, acc => by
    simp only [List.foldl_cons]
    refine (sortDescAux_perm l (insertDesc x acc)).trans ?_
    refine (((insertDesc_perm x acc).append_right l).trans ?_)
    exact List.perm_middle.symm

theorem sortDesc_perm {κ : Type} (l : List (κ × Nat)) :
    (sortDesc l).Perm l := by
  simpa using sortDescAux_perm l []

theorem sortDescAux_sorted {κ : Type} : ∀ (l acc : List (κ × Nat)),
    acc.Pairwise (fun a b => b.2 ≤ a.2) →
    (l.foldl (fun acc x => insertDesc x acc) acc).Pairwise
      (fun a b => b.2 ≤ a.2)
  | [], _, h => h
  | x :: l, acc, h =>
    sortDescAux_sorted l (insertDesc x acc) (insertDesc_sorted x acc h)

theorem sortDesc_sorted {κ : Type} (l : List (κ × Nat)) :
    (sortDesc l).Pairwise (fun a b => b.2 ≤ a.2) :=
  sortDescAux_sorted l [] (List.Pairwise.nil)

theorem sortDescAux_filter {κ : Type} (s : Nat) :
    ∀ (l acc : List (κ × Nat)), acc.Pairwise (fun a b => b.2 ≤ a.2) →
    (l.foldl (fun acc x => insertDesc x acc) acc).filter (fun p => p.2 == s)
      = acc.filter (fun p => p.2 == s) ++ l.filter (fun p => p.2 == s)
  | [], acc, _ => by simp
  | x :: l, acc, h => by
    simp only [List.foldl_cons]
    rw [sortDescAux_filter s l (insertDesc x acc) (insertDesc_sorted x acc h),
        insertDesc_filter s x acc h]
    by_cases hx : x.2 == s
    · rw [if_pos hx, List.filter_cons, if_pos hx]
      simp
    · rw [if_neg hx, List.filter_cons, if_neg hx]

/-- Stability of the descending sort: for every score value, the elements
carrying that score appear in the output in exactly their input order. -/
theorem sortDesc_filter {κ : Type} (s : Nat) (l : List (κ × Nat)) :
    (sortDesc l).filter (fun p => p.2 == s) = l.filter (fun p => p.2 == s) := by
  simpa using sortDescAux_filter s l [] List.Pairwise.nil

theorem sortDesc_keys_nodup {κ : Type} (l : List (κ × Nat))
    (h : (l.map Prod.fst).Nodup) : ((sortDesc l).map Prod.fst).Nodup :=
  (((sortDesc_perm l).map Prod.fst).nodup_iff).mpr h

/-! ### Lemmas about dict assignment -/

theorem dictInsert_keys {κ ν : Type} [BEq κ] (d : List (κ × ν)) (k : κ) (v : ν) :
    (dictInsert d k v).map Prod.fst =
      if d.any (fun p => p.1 == k) then d.map Prod.fst
      else d.map Prod.fst ++ [k] := by
  unfold dictInsert
  by_cases h : d.any (fun p => p.1 == k)
  · rw [if_pos h, if_pos h, List.map_map]
    apply List.map_congr_left
    intro p _
    by_cases hpk : p.1 == k <;> simp [hpk]
  · rw [if_neg h, if_neg h, List.map_append]
    rfl

theorem dictInsert_keys_sub {κ ν : Type} [BEq κ] (d : List (κ × ν))
    (k : κ) (v : ν) (a : κ) (h : a ∈ d.map Prod.fst) :
    a ∈ (dictInsert d k v).map Prod.fst := by
  rw [dictInsert_keys]
  by_cases hc : d.any (fun p => p.1 == k)
  · rwa [if_pos hc]
  · rw [if_neg hc]
    exact List.mem_append_left _ h

theorem dictInsert_key_mem {κ ν : Type} [BEq κ] [LawfulBEq κ]
    (d : List (κ × ν)) (k : κ) (v : ν) :
    k ∈ (dictInsert d k v).map Prod.fst := by
  rw [dictInsert_keys]
  by_cases hc : d.any (fun p => p.1 == k)
  · rw [if_pos hc]
    rcases List.any_eq_true.mp hc with ⟨p, hp, hpk⟩
    exact List.mem_map.mpr ⟨p, hp, eq_of_beq hpk⟩
  · rw [if_neg hc]
    exact List.mem_append_right _ (List.mem_singleton.mpr rfl)

theorem dictInsert_keys_nodup {κ ν : Type} [BEq κ] [LawfulBEq κ]
    (d : List (κ × ν)) (k : κ) (v : ν)
    (h : (d.map Prod.fst).Nodup) : ((dictInsert d k v).map Prod.fst).Nodup := by
  rw [dictInsert_keys]
  by_cases hc : d.any (fun p => p.1 == k)
  · rwa [if_pos hc]
  · rw [if_neg hc]
    have hk : k ∉ d.map Prod.fst := by
      intro hk
      rcases List.mem_map.mp hk with ⟨p, hp, hfst⟩
      exact hc (List.any_eq_true.mpr ⟨p, hp, beq_iff_eq.mpr hfst⟩)
    simp [List.nodup_append, h, hk]

theorem dictInsert_forall {κ ν : Type} [BEq κ] [LawfulBEq κ]
    {P : κ × ν → Prop} (d : List (κ × ν)) (k : κ) (v : ν)
    (hd : ∀ p ∈ d, P p) (hk : P (k, v)) :
    ∀ p ∈ dictInsert d k v, P p := by
  intro p hp
  unfold dictInsert at hp
  by_cases h : d.any (fun p => p.1 == k)
  · rw [if_pos h] at hp
    rcases List.mem_map.mp hp with ⟨q, hq, rfl⟩
    by_cases hqk : q.1 == k
    · have hq1 : q.1 = k := eq_of_beq hqk
      rw [if_pos hqk]
      rw [hq1]
      exact hk
    · rw [if_neg hqk]
      exact hd q hq
  · rw [if_neg h] at hp
    rcases List.mem_append.mp hp with hp | hp
    · exact hd p hp
    · rw [List.mem_singleton.mp hp]
      exact hk

theorem dictInsert_ne_nil {κ ν : Type} [BEq κ] (d : List (κ × ν))
    (k : κ) (v : ν) : dictInsert d k v ≠ [] := by
  unfold dictInsert
  by_cases h : d.any (fun p => p.1 == k)
  · rw [if_pos h]
    intro hmap
    rcases List.any_eq_true.mp h with ⟨p, hp, _⟩
    rw [List.map_eq_nil_iff.mp hmap] at hp
    exact absurd hp (List.not_mem_nil p)
  · rw [if_neg h]
    exact List.append_ne_nil_of_right_ne_nil _ (by simp)

/-! ### Lemmas about the ScoreMap loop -/

theorem buildScores_nodup (ratio : String → String → Nat) (name : String) :
    ∀ (ships : List Record) (acc scores : List (String × Nat)),
    buildScores ratio name ships acc = .ok scores →
    (acc.map Prod.fst).Nodup → (scores.map Prod.fst).Nodup
  | [], acc, scores, h, hn => by
    simp only [buildScores, Except.ok.injEq] at h
    rwa [← h]
  | ship :: rest, acc, scores, h, hn => by
    simp only [buildScores] at h
    cases hsn : shipnameOf ship with
    | none => rw [hsn] at h; exact absurd h (by simp)
    | some sn =>
      rw [hsn] at h
      exact buildScores_nodup ratio name rest _ scores h
        (dictInsert_keys_nodup acc sn _ hn)

theorem buildScores_values (ratio : String → String → Nat) (name : String) :
    ∀ (ships : List Record) (acc scores : List (String × Nat)),
    buildScores ratio name ships acc = .ok scores →
    (∀ p ∈ acc, p.2 = ratio (pyLower name) (pyLower p.1)) →
    ∀ p ∈ scores, p.2 = ratio (pyLower name) (pyLower p.1)
  | [], acc, scores, h, hv => by
    simp only [buildScores, Except.ok.injEq] at h
    rw [← h]
    exact hv
  | ship :: rest, acc, scores, h, hv => by
    simp only [buildScores] at h
    cases hsn : shipnameOf ship with
    | none => rw [hsn] at h; exact absurd h (by simp)
    | some sn =>
      rw [hsn] at h
      exact buildScores_values ratio name rest _ scores h
        (dictInsert_forall acc sn _ hv rfl)

theorem buildScores_keys_mono (ratio : String → String → Nat) (name : String) :
    ∀ (ships : List Record) (acc scores : List (String × Nat)),
    buildScores ratio name ships acc = .ok scores →
    ∀ a, a ∈ acc.map Prod.fst → a ∈ scores.map Prod.fst
  | [], acc, scores, h, a, ha => by
    simp only [buildScores, Except.ok.injEq] at h
    rwa [← h]
  | ship :: rest, acc, scores, h, a, ha => by
    simp only [buildScores] at h
    cases hsn : shipnameOf ship with
    | none => rw [hsn] at h; exact absurd h (by simp)
    | some sn =>
      rw [hsn] at h
      exact buildScores_keys_mono ratio name rest _ scores h a
        (dictInsert_keys_sub acc sn _ a ha)

theorem buildScores_names (ratio : String → String → Nat) (name : String) :
    ∀ (ships : List Record) (acc scores : List (String × Nat)),
    buildScores ratio name ships acc = .ok scores →
    ∀ r ∈ ships, ∀ sn, shipnameOf r = some sn → sn ∈ scores.map Prod.fst
  | [], _, _, _, r, hr, _, _ => absurd hr (List.not_mem_nil r)
  | ship :: rest, acc, scores, h, r, hr, sn, hsn => by
    simp only [buildScores] at h
    cases hsn2 : shipnameOf ship with
    | none => rw [hsn2] at h; exact absurd h (by simp)
    | some sn2 =>
      rw [hsn2] at h
      rcases List.mem_cons.mp hr with rfl | hr
      · have hss : sn2 = sn := by
          rw [hsn2] at hsn
          exact Option.some_inj.mp hsn
        rw [← hss]
        exact buildScores_keys_mono ratio name rest _ scores h sn2
          (dictInsert_key_mem acc sn2 _)
      · exact buildScores_names ratio name rest _ scores h r hr sn hsn

theorem buildScores_ne_nil (ratio : String → String → Nat) (name : String) :
    ∀ (ships : List Record) (acc scores : List (String × Nat)),
    buildScores ratio name ships acc = .ok scores →
    (ships ≠ [] ∨ acc ≠ []) → scores ≠ []
  | [], acc, scores, h, hne => by
    simp only [buildScores, Except.ok.injEq] at h
    rcases hne with hne | hne
    · exact absurd rfl hne
    · rwa [← h]
  | ship :: rest, acc, scores, h, _ => by
    simp only [buildScores] at h
    cases hsn : shipnameOf ship with
    | none => rw [hsn] at h; exact absurd h (by simp)
    | some sn =>
      rw [hsn] at h
      exact buildScores_ne_nil ratio name rest _ scores h
        (Or.inr (dictInsert_ne_nil acc sn _))

theorem readShips_ok (ratio : String → String → Nat) (name : String) :
    ∀ (ships : List Record) (acc : List (String × Nat))
      (out : List Record × List (String × Nat)),
    readShips ratio name ships acc = .ok out →
    out.1 = ships ∧ buildScores ratio name ships acc = .ok out.2
  | [], acc, out, h => by
    simp only [readShips, Except.ok.injEq] at h
    rw [← h]
    exact ⟨rfl, rfl⟩
  | ship :: rest, acc, out, h => by
    simp only [readShips] at h
    cases hsn : shipnameOf ship with
    | none => rw [hsn] at h; exact absurd h (by simp)
    | some sn =>
      rw [hsn] at h
      have h2 : (match readShips ratio name rest
          (dictInsert acc sn (ratio (pyLower name) (pyLower sn))) with
        | Except.error e =>
            (Except.error e : Except PyErr (List Record × List (String × Nat)))
        | Except.ok (rest2, scores) =>
            Except.ok (ship :: rest2, scores)) = Except.ok out := h
      cases hrec : readShips ratio name rest
          (dictInsert acc sn (ratio (pyLower name) (pyLower sn))) with
      | error e =>
        rw [hrec] at h2
        exact absurd h2 (by simp)
      | ok out2 =>
        rw [hrec] at h2
        obtain ⟨rest2, scores2⟩ := out2
        injection h2 with h2
        rcases readShips_ok ratio name rest _ (rest2, scores2) hrec with ⟨h1, h3⟩
        subst h2
        constructor
        · exact congrArg (List.cons ship) h1
        · show buildScores ratio name (ship :: rest) acc = Except.ok scores2
          simp only [buildScores, hsn]
          exact h3

/-! ### Lemmas about the median helper -/

theorem get_median_isSome (d : List (String × Nat)) (h : d ≠ []) :
    ∃ m, get_median_ships_scores d = some m := by
  simp only [get_median_ships_scores]
  have hlen : (sortAsc (d.map (fun p => p.2))).length = d.length := by
    rw [(sortAsc_perm _).length_eq, List.length_map]
  have hpos : 0 < (sortAsc (d.map (fun p => p.2))).length := by
    rw [hlen]
    exact List.length_pos.mpr h
  set l := sortAsc (d.map (fun p => p.2)) with hldef
  by_cases hpar : l.length % 2 == 0
  · rw [if_pos hpar]
    have hmod : l.length % 2 = 0 := beq_iff_eq.mp hpar
    have h2 : 2 ≤ l.length := by omega
    have hi2 : l.length / 2 < l.length := Nat.div_lt_self hpos (by decide)
    have hi1 : l.length / 2 - 1 < l.length :=
      lt_of_le_of_lt (Nat.sub_le _ _) hi2
    rcases List.get?_eq_get hi1 with hg1
    rcases List.get?_eq_get hi2 with hg2
    rw [hg1, hg2]
    exact ⟨_, rfl⟩
  · rw [if_neg hpar]
    have hi : l.length / 2 < l.length := Nat.div_lt_self hpos (by decide)
    rcases List.get?_eq_get hi with hg
    rw [hg]
    exact ⟨_, rfl⟩

/-- The median is a function of the multiset of all stored scores: two
ScoreMaps whose value lists are permutations of one another have the same
median.  In particular the median is never computed from a proper subset of
the values. -/
theorem get_median_perm (d₁ d₂ : List (String × Nat))
    (h : (d₁.map (fun p => p.2)).Perm (d₂.map (fun p => p.2))) :
    get_median_ships_scores d₁ = get_median_ships_scores d₂ := by
  simp only [get_median_ships_scores]
  rw [sortAsc_eq_of_perm h]

/-! ### Branch lemmas for `search_ship` -/

theorem search_ship_exact_branch (ratio : String → String → Nat)
    (ships : List Record) (commands : List String)
    (scores : List (String × Nat))
    (hb : buildScores ratio (queryOf commands) ships [] = .ok scores)
    (h100 : scores.any (fun p => p.2 == 100) = true) :
    search_ship ratio ships commands =
      .ok ⟨(exactFilter (queryOf commands) ships).head?.map formatRecord, []⟩ := by
  simp only [search_ship]
  rw [hb]
  simp only [searchBody, h100, if_true]

theorem search_ship_reco_branch (ratio : String → String → Nat)
    (ships : List Record) (commands : List String)
    (scores : List (String × Nat)) (m : ℚ)
    (hb : buildScores ratio (queryOf commands) ships [] = .ok scores)
    (h100 : scores.any (fun p => p.2 == 100) = false)
    (hm : get_median_ships_scores scores = some m) :
    search_ship ratio ships commands =
      .ok ⟨some ("\n".intercalate
              (((sortDesc (scores.filter (fun p => decide (m * 2 < (p.2 : ℚ))))).take 5).map
                (fun p => p.1))),
           (if m = 0
            then ["\x27" ++ queryOf commands ++ "\x27 ship not found."] else [])
             ++ ["Ship \x27" ++ queryOf commands ++ "\x27 not found, do you mean:"]⟩ := by
  simp only [search_ship]
  rw [hb]
  simp only [searchBody, h100, Bool.false_eq_true, if_false]
  rw [hm]

theorem search_ship_error_branch (ratio : String → String → Nat)
    (ships : List Record) (commands : List String)
    (scores : List (String × Nat))
    (hb : buildScores ratio (queryOf commands) ships [] = .ok scores)
    (h100 : scores.any (fun p => p.2 == 100) = false)
    (hm : get_median_ships_scores scores = none) :
    search_ship ratio ships commands = .error .indexError := by
  simp only [search_ship]
  rw [hb]
  simp only [searchBody, h100, Bool.false_eq_true, if_false]
  rw [hm]

/-! ### Claim theorems -/

/-- C4: on the empty record store `search_ship` does not surface a NoData
condition: for every scorer and every command line it raises the
`IndexError` coming from `scores_list[length // 2 - 1]` on the empty score
list inside `get_median_ships_scores`.  This settles the claim against the
code: the empty-median edge case is a crash, not a handled condition. -/
theorem search_ship_empty_store (ratio : String → String → Nat)
    (commands : List String) :
    search_ship ratio [] commands = .error .indexError :=
  search_ship_error_branch ratio [] commands [] rfl rfl rfl

/-- C3: Scenario A evaluated on the code.  With the single-record store
`[{"SHIPNAME": "DISNEY DREAM"}]` and query "disney" (actual library score
67 < 100), the suggestion filter demands `67 > 2 · 67`, which fails, so
the returned text is empty: "DISNEY DREAM" is NOT surfaced, contradicting
the claim (and the function's own docstring); only the did-you-mean notice
is emitted. -/
theorem search_ship_disney_no_suggestion :
    search_ship ratioDisney disneyStore ["search_ship", "disney"] =
      .ok ⟨some "", ["Ship \x27disney\x27 not found, do you mean:"]⟩ := by
  have hb : buildScores ratioDisney (queryOf ["search_ship", "disney"])
      disneyStore [] = .ok [("DISNEY DREAM", 67)] := rfl
  have hm : get_median_ships_scores [("DISNEY DREAM", 67)]
      = some (((67 : Nat)) : ℚ) := rfl
  rw [search_ship_reco_branch ratioDisney disneyStore ["search_ship", "disney"]
      [("DISNEY DREAM", 67)] (((67 : Nat)) : ℚ) hb rfl hm]
  have hdec : (decide ((((67 : Nat)) : ℚ) * 2 < (((67 : Nat)) : ℚ))) = false := by
    apply decide_eq_false
    push_cast
    norm_num
  have hne0 : (((67 : Nat)) : ℚ) ≠ 0 := by
    push_cast
    norm_num
  simp only [List.filter_cons, List.filter_nil, hdec, Bool.false_eq_true,
             if_false, if_neg hne0]
  rfl

/-- C8: `search_ship` is deterministic: two calls with the same scorer,
store and command line produce the same outcome, returned string and
emitted notices alike. -/
theorem search_ship_deterministic (ratio : String → String → Nat)
    (ships : List Record) (commands : List String)
    (r₁ r₂ : Except PyErr SearchResult)
    (h₁ : search_ship ratio ships commands = r₁)
    (h₂ : search_ship ratio ships commands = r₂) : r₁ = r₂ :=
  h₁.symm.trans h₂

/-- Witness for C8 at a concrete store and query. -/
theorem search_ship_deterministic_witness :
    (Except.ok ⟨some "SHIPNAME: ALPHA\nX: 1", []⟩ : Except PyErr SearchResult) =
      .ok ⟨some "SHIPNAME: ALPHA\nX: 1", []⟩ :=
  search_ship_deterministic eqRatio twinStore ["search_ship", "alpha"] _ _
    rfl rfl

/-- C9: `search_ship` never mutates the record store: threading the store
through the call (`search_ship_call`, whose scoring loop hands back every
record it reads), the store standing after a successful call is exactly
the input store. -/
theorem search_ship_preserves_store (ratio : String → String → Nat)
    (ships store2 : List Record) (commands : List String)
    (res : SearchResult)
    (h : search_ship_call ratio ships commands = .ok (res, store2)) :
    store2 = ships := by
  simp only [search_ship_call] at h
  cases hrec : readShips ratio (queryOf commands) ships [] with
  | error e =>
    rw [hrec] at h
    exact absurd h (by simp)
  | ok out =>
    obtain ⟨s2, scores⟩ := out
    rw [hrec] at h
    have h2 : (searchBody (queryOf commands) s2 scores).map
        (fun r => (r, s2)) = .ok (res, store2) := h
    cases hsb : searchBody (queryOf commands) s2 scores with
    | error e =>
      rw [hsb] at h2
      exact absurd h2 (by simp [Except.map])
    | ok r =>
      rw [hsb] at h2
      simp only [Except.map, Except.ok.injEq] at h2
      have hs : s2 = store2 := congrArg Prod.snd h2
      rw [← hs]
      exact (readShips_ok ratio (queryOf commands) ships [] (s2, scores) hrec).1

/-- Witness for C9 at a concrete store and query. -/
theorem search_ship_preserves_store_witness : twinStore = twinStore :=
  search_ship_preserves_store eqRatio twinStore twinStore
    ["search_ship", "alpha"] ⟨some "SHIPNAME: ALPHA\nX: 1", []⟩ rfl

/-- C6: `get_median_ships_scores` reads the stored scores into a fresh
list (the input mapping is untouched; the embedding is pure and the source
sorts only the copy `list(ships_scores.values())`), sorts it ascending,
and returns the single middle element for odd length, else the arithmetic
mean of the two central elements; concretely the median of values
[1,2,3,4] is 5/2 and the median of [5] is 5. -/
theorem get_median_spec (d : List (String × Nat)) (h : d ≠ []) :
    ∃ l : List Nat, l.Perm (d.map (fun p => p.2)) ∧ l.Pairwise (· ≤ ·) ∧
      ((l.length % 2 = 1 ∧ ∃ a, l.get? (l.length / 2) = some a ∧
          get_median_ships_scores d = some ((a : ℚ))) ∨
       (l.length % 2 = 0 ∧ ∃ a b, l.get? (l.length / 2 - 1) = some a ∧
          l.get? (l.length / 2) = some b ∧
          get_median_ships_scores d = some (((a : ℚ) + (b : ℚ)) / 2))) ∧
      get_median_ships_scores [("a", 1), ("b", 2), ("c", 3), ("d", 4)]
        = some ((5 : ℚ) / 2) ∧
      get_median_ships_scores [("e", 5)] = some 5 := by
  refine ⟨sortAsc (d.map (fun p => p.2)), sortAsc_perm _, sortAsc_sorted _,
    ?_, ?_, ?_⟩
  · set l := sortAsc (d.map (fun p => p.2)) with hl
    have hlen : l.length = d.length := by
      rw [hl, (sortAsc_perm _).length_eq, List.length_map]
    have hpos : 0 < l.length := by
      rw [hlen]
      exact List.length_pos.mpr h
    by_cases hpar : l.length % 2 == 0
    · right
      have hmod : l.length % 2 = 0 := beq_iff_eq.mp hpar
      have hi2 : l.length / 2 < l.length := Nat.div_lt_self hpos (by decide)
      have hi1 : l.length / 2 - 1 < l.length :=
        lt_of_le_of_lt (Nat.sub_le _ _) hi2
      refine ⟨hmod, l.get ⟨_, hi1⟩, l.get ⟨_, hi2⟩,
        List.get?_eq_get hi1, List.get?_eq_get hi2, ?_⟩
      simp only [get_median_ships_scores]
      rw [← hl, if_pos hpar, List.get?_eq_get hi1, List.get?_eq_get hi2]
    · left
      have hmod : l.length % 2 = 1 := by
        rcases Nat.mod_two_eq_zero_or_one l.length with h0 | h1
        · exact absurd (beq_iff_eq.mpr h0) hpar
        · exact h1
      have hi : l.length / 2 < l.length := Nat.div_lt_self hpos (by decide)
      refine ⟨hmod, l.get ⟨_, hi⟩, List.get?_eq_get hi, ?_⟩
      simp only [get_median_ships_scores]
      rw [← hl, if_neg hpar, List.get?_eq_get hi]
      rfl
  · have h1 : get_median_ships_scores [("a", 1), ("b", 2), ("c", 3), ("d", 4)]
        = some (((((2 : Nat)) : ℚ) + (((3 : Nat)) : ℚ)) / 2) := rfl
    have h2 : ((((2 : Nat)) : ℚ) + (((3 : Nat)) : ℚ)) / 2 = (5 : ℚ) / 2 := by
      push_cast
      norm_num
    rw [h1, h2]
  · rfl

/-- Witness for C6 at the concrete four-score map. -/
theorem get_median_spec_witness :
    ∃ l : List Nat,
      l.Perm ([("a", 1), ("b", 2), ("c", 3), ("d", 4)].map (fun p => p.2)) ∧
      l.Pairwise (· ≤ ·) ∧
      ((l.length % 2 = 1 ∧ ∃ a, l.get? (l.length / 2) = some a ∧
          get_median_ships_scores [("a", 1), ("b", 2), ("c", 3), ("d", 4)]
            = some ((a : ℚ))) ∨
       (l.length % 2 = 0 ∧ ∃ a b, l.get? (l.length / 2 - 1) = some a ∧
          l.get? (l.length / 2) = some b ∧
          get_median_ships_scores [("a", 1), ("b", 2), ("c", 3), ("d", 4)]
            = some (((a : ℚ) + (b : ℚ)) / 2))) ∧
      get_median_ships_scores [("a", 1), ("b", 2), ("c", 3), ("d", 4)]
        = some ((5 : ℚ) / 2) ∧
      get_median_ships_scores [("e", 5)] = some 5 :=
  get_median_spec [("a", 1), ("b", 2), ("c", 3), ("d", 4)] (by decide)

/-- C2: when the query case-insensitively equals some record's SHIPNAME
(and the scorer, like any fuzzy ratio, scores identical strings 100),
`search_ship` returns exactly the field dump of the first such record in
store order — every field as a "field: value" line in the record's own
field order — with no notices; later records matching the same name are
not returned. -/
theorem search_ship_exact_match (ratio : String → String → Nat)
    (ships : List Record) (commands : List String)
    (scores : List (String × Nat))
    (hb : buildScores ratio (queryOf commands) ships [] = .ok scores)
    (hrefl : ∀ s, ratio s s = 100)
    (r : Record) (hr : r ∈ ships) (sn : String)
    (hsn : shipnameOf r = some sn)
    (hmatch : pyLower (queryOf commands) = pyLower sn) :
    ∃ first rest, exactFilter (queryOf commands) ships = first :: rest ∧
      first ∈ ships ∧
      (∃ snf, shipnameOf first = some snf ∧
        pyLower (queryOf commands) = pyLower snf) ∧
      search_ship ratio ships commands =
        .ok ⟨some (formatRecord first), []⟩ := by
  have hkey : sn ∈ scores.map Prod.fst :=
    buildScores_names ratio (queryOf commands) ships [] scores hb r hr sn hsn
  obtain ⟨p, hp, hfst⟩ := List.mem_map.mp hkey
  have hval : p.2 = ratio (pyLower (queryOf commands)) (pyLower p.1) :=
    buildScores_values ratio (queryOf commands) ships [] scores hb
      (by simp) p hp
  have hval2 : p.2 = 100 := by
    rw [hval, hfst, hmatch, hrefl]
  have hany : scores.any (fun q => q.2 == 100) = true :=
    List.any_eq_true.mpr ⟨p, hp, beq_iff_eq.mpr hval2⟩
  have hrmem : r ∈ exactFilter (queryOf commands) ships := by
    refine List.mem_filter.mpr ⟨hr, ?_⟩
    show (match shipnameOf r with
      | some s => pyLower (queryOf commands) == pyLower s
      | none => false) = true
    rw [hsn]
    exact beq_iff_eq.mpr hmatch
  obtain ⟨first, rest, hfr⟩ :=
    List.exists_cons_of_ne_nil (List.ne_nil_of_mem hrmem)
  have hfirst := List.mem_filter.mp (hfr ▸ List.mem_cons_self first rest)
  refine ⟨first, rest, hfr, hfirst.1, ?_, ?_⟩
  · have hpred := hfirst.2
    cases hsnf : shipnameOf first with
    | none =>
      rw [hsnf] at hpred
      exact absurd hpred (by simp)
    | some snf =>
      rw [hsnf] at hpred
      exact ⟨snf, rfl, beq_iff_eq.mp hpred⟩
  · rw [search_ship_exact_branch ratio ships commands scores hb hany, hfr]
    rfl

/-- Witness for C2: Scenario C, two records both named ALPHA; the query
"alpha" returns only the first record's dump. -/
theorem search_ship_exact_match_witness :
    ∃ first rest,
      exactFilter (queryOf ["search_ship", "alpha"]) twinStore
        = first :: rest ∧
      first ∈ twinStore ∧
      (∃ snf, shipnameOf first = some snf ∧
        pyLower (queryOf ["search_ship", "alpha"]) = pyLower snf) ∧
      search_ship eqRatio twinStore ["search_ship", "alpha"] =
        .ok ⟨some (formatRecord first), []⟩ :=
  search_ship_exact_match eqRatio twinStore ["search_ship", "alpha"]
    [("ALPHA", 100)] rfl (fun s => by simp [eqRatio])
    [("SHIPNAME", "ALPHA"), ("X", "1")] (by decide) "ALPHA" rfl rfl

/-- C5 counterexample: `search_ship` does NOT always produce a string.
With the library's rounding the two distinct ~100-character strings
`aHundredB` and `aHundred` score 100 (`ratioNear`), so on `nearMissStore`
with query `aHundredB` the exact-match branch is entered, its name filter
is empty, the `for ... return` loop never runs, and the function falls off
the end: Python returns `None` (modelled `retVal = none`), not a string. -/
theorem search_ship_none_counterexample :
    search_ship ratioNear nearMissStore ["search_ship", aHundredB] =
      .ok ⟨none, []⟩ := by
  rfl

/-- C5 amended: on a non-empty store whose records all carry a SHIPNAME,
`search_ship` raises nothing (the call is `.ok`), and it returns a string
except precisely when some score equals 100 while no record's SHIPNAME
case-insensitively equals the query — in that case it returns Python
`None` instead of a string. -/
theorem search_ship_returns_string_iff (ratio : String → String → Nat)
    (ships : List Record) (commands : List String)
    (scores : List (String × Nat))
    (hb : buildScores ratio (queryOf commands) ships [] = .ok scores)
    (hne : ships ≠ []) :
    ∃ res, search_ship ratio ships commands = .ok res ∧
      (res.retVal = none ↔
        (scores.any (fun p => p.2 == 100) = true ∧
         exactFilter (queryOf commands) ships = [])) := by
  by_cases hany : scores.any (fun p => p.2 == 100)
  · refine ⟨_, search_ship_exact_branch ratio ships commands scores hb hany, ?_⟩
    simp only [hany, true_and]
    constructor
    · intro hnone
      exact List.head?_eq_none_iff.mp (Option.map_eq_none'.mp hnone)
    · intro hnil
      rw [hnil]
      rfl
  · have hsne : scores ≠ [] :=
      buildScores_ne_nil ratio (queryOf commands) ships [] scores hb
        (Or.inl hne)
    obtain ⟨m, hm⟩ := get_median_isSome scores hsne
    have hany2 : scores.any (fun p => p.2 == 100) = false := by
      cases hbool : scores.any (fun p => p.2 == 100) with
      | true => exact absurd hbool hany
      | false => rfl
    refine ⟨_, search_ship_reco_branch ratio ships commands scores m hb
      hany2 hm, ?_⟩
    constructor
    · intro hnone
      exact absurd hnone (by simp)
    · intro hc
      exact absurd hc.1 hany

/-- Witness for the amended C5 at the near-miss store: the call is `.ok`
and its return value is `none` exactly because the 100-score check fired
with an empty exact filter. -/
theorem search_ship_returns_string_iff_witness :
    ∃ res, search_ship ratioNear nearMissStore ["search_ship", aHundredB]
        = .ok res ∧
      (res.retVal = none ↔
        ([(aHundredUpper, 100)].any (fun p => p.2 == 100) = true ∧
         exactFilter (queryOf ["search_ship", aHundredB]) nearMissStore
           = [])) :=
  search_ship_returns_string_iff ratioNear nearMissStore
    ["search_ship", aHundredB] [(aHundredUpper, 100)] rfl (by decide)

/-- C7: ScoreMap invariants.  In every `search_ship` call the ScoreMap has
pairwise-distinct ship names (a later duplicate record overwrites the
earlier entry in place), every stored score is the scorer's value for the
lowered query and that name — hence within [0,100] for a scorer honouring
the spec's range — every record's SHIPNAME appears as a key, and the
median is a function of the full multiset of stored values (never a
proper subset): any ScoreMap with the same value multiset has the same
median. -/
theorem scoremap_invariants (ratio : String → String → Nat)
    (ships : List Record) (commands : List String)
    (scores : List (String × Nat))
    (hb : buildScores ratio (queryOf commands) ships [] = .ok scores)
    (hrange : ∀ a b, ratio a b ≤ 100) :
    (scores.map Prod.fst).Nodup ∧
    (∀ p ∈ scores,
      p.2 = ratio (pyLower (queryOf commands)) (pyLower p.1) ∧ p.2 ≤ 100) ∧
    (∀ r ∈ ships, ∀ sn, shipnameOf r = some sn → sn ∈ scores.map Prod.fst) ∧
    (∀ scores₂ : List (String × Nat),
      (scores₂.map (fun p => p.2)).Perm (scores.map (fun p => p.2)) →
      get_median_ships_scores scores₂ = get_median_ships_scores scores) := by
  refine ⟨buildScores_nodup ratio (queryOf commands) ships [] scores hb
      (by simp),
    fun p hp => ?_,
    buildScores_names ratio (queryOf commands) ships [] scores hb,
    fun s2 hperm => get_median_perm s2 scores hperm⟩
  have hv := buildScores_values ratio (queryOf commands) ships [] scores hb
    (by simp) p hp
  exact ⟨hv, hv ▸ hrange _ _⟩

/-- Witness for C7 on the duplicate-name store: the two ALPHA records
collapse to the single entry ("ALPHA", 100). -/
theorem scoremap_invariants_witness :
    ([("ALPHA", 100)].map (Prod.fst (α := String) (β := Nat))).Nodup ∧
    (∀ p ∈ [("ALPHA", 100)],
      p.2 = eqRatio (pyLower (queryOf ["search_ship", "alpha"])) (pyLower p.1)
        ∧ p.2 ≤ 100) ∧
    (∀ r ∈ twinStore, ∀ sn, shipnameOf r = some sn →
      sn ∈ [("ALPHA", 100)].map Prod.fst) ∧
    (∀ scores₂ : List (String × Nat),
      (scores₂.map (fun p => p.2)).Perm ([("ALPHA", 100)].map (fun p => p.2)) →
      get_median_ships_scores scores₂
        = get_median_ships_scores [("ALPHA", 100)]) :=
  scoremap_invariants eqRatio twinStore ["search_ship", "alpha"]
    [("ALPHA", 100)] rfl
    (fun a b => by simp only [eqRatio]; split <;> decide)

/-- C1: with a non-empty store and no similarity score equal to 100,
`search_ship` returns, one name per line, exactly the ScoreMap entries
whose score strictly exceeds twice the median of all ScoreMap values,
sorted by score descending with ties kept in ScoreMap insertion order
(the stable-sort filter equation below), truncated to the first 5; the
printed names are pairwise distinct ship names drawn from the ScoreMap,
and there are at most 5 of them. -/
theorem search_ship_recommendations (ratio : String → String → Nat)
    (ships : List Record) (commands : List String)
    (scores : List (String × Nat))
    (hb : buildScores ratio (queryOf commands) ships [] = .ok scores)
    (hne : ships ≠ [])
    (h100 : ∀ p ∈ scores, p.2 ≠ 100) :
    ∃ (m : ℚ) (L : List (String × Nat)) (ns : List String),
      get_median_ships_scores scores = some m ∧
      L = sortDesc (scores.filter (fun p => decide (m * 2 < (p.2 : ℚ)))) ∧
      L.Perm (scores.filter (fun p => decide (m * 2 < (p.2 : ℚ)))) ∧
      L.Pairwise (fun a b => b.2 ≤ a.2) ∧
      (∀ s : Nat, L.filter (fun p => p.2 == s)
        = (scores.filter (fun p => decide (m * 2 < (p.2 : ℚ)))).filter
            (fun p => p.2 == s)) ∧
      ns = (L.take 5).map (fun p => p.1) ∧
      ns.Nodup ∧ ns.length ≤ 5 ∧
      (∀ n ∈ ns, n ∈ scores.map (fun p => p.1)) ∧
      search_ship ratio ships commands =
        .ok ⟨some ("\n".intercalate ns),
          (if m = 0
           then ["\x27" ++ queryOf commands ++ "\x27 ship not found."]
           else [])
            ++ ["Ship \x27" ++ queryOf commands
                  ++ "\x27 not found, do you mean:"]⟩ := by
  have hsne : scores ≠ [] :=
    buildScores_ne_nil ratio (queryOf commands) ships [] scores hb
      (Or.inl hne)
  obtain ⟨m, hm⟩ := get_median_isSome scores hsne
  have hany : scores.any (fun p => p.2 == 100) = false := by
    rw [List.any_eq_false]
    intro p hp
    simpa using h100 p hp
  refine ⟨m, sortDesc (scores.filter (fun p => decide (m * 2 < (p.2 : ℚ)))),
    ((sortDesc (scores.filter (fun p => decide (m * 2 < (p.2 : ℚ))))).take 5).map
      (fun p => p.1),
    hm, rfl, sortDesc_perm _, sortDesc_sorted _, fun s => sortDesc_filter s _,
    rfl, ?_, ?_, ?_, ?_⟩
  · have h1 : (scores.map Prod.fst).Nodup :=
      buildScores_nodup ratio (queryOf commands) ships [] scores hb (by simp)
    have h2 : ((scores.filter
        (fun p => decide (m * 2 < (p.2 : ℚ)))).map Prod.fst).Nodup :=
      List.Nodup.sublist
        (List.Sublist.map Prod.fst (List.filter_sublist scores)) h1
    have h3 := sortDesc_keys_nodup _ h2
    exact List.Nodup.sublist
      (List.Sublist.map Prod.fst (List.take_sublist 5 _)) h3
  · rw [List.length_map, List.length_take]
    exact min_le_left _ _
  · intro n hn
    obtain ⟨p, hp, rfl⟩ := List.mem_map.mp hn
    have hpL : p ∈ sortDesc (scores.filter
        (fun p => decide (m * 2 < (p.2 : ℚ)))) :=
      List.mem_of_mem_take hp
    have hpF := (sortDesc_perm _).mem_iff.mp hpL
    exact List.mem_map_of_mem _ (List.mem_of_mem_filter hpF)
  · exact search_ship_reco_branch ratio ships commands scores m hb hany hm

/-- Witness for C1 at the three-ship demonstration store (scores 90, 30,
10: median 30, threshold 60, single suggestion ALPHA). -/
theorem search_ship_recommendations_witness :
    ∃ (m : ℚ) (L : List (String × Nat)) (ns : List String),
      get_median_ships_scores demoScores = some m ∧
      L = sortDesc (demoScores.filter (fun p => decide (m * 2 < (p.2 : ℚ)))) ∧
      L.Perm (demoScores.filter (fun p => decide (m * 2 < (p.2 : ℚ)))) ∧
      L.Pairwise (fun a b => b.2 ≤ a.2) ∧
      (∀ s : Nat, L.filter (fun p => p.2 == s)
        = (demoScores.filter (fun p => decide (m * 2 < (p.2 : ℚ)))).filter
            (fun p => p.2 == s)) ∧
      ns = (L.take 5).map (fun p => p.1) ∧
      ns.Nodup ∧ ns.length ≤ 5 ∧
      (∀ n ∈ ns, n ∈ demoScores.map (fun p => p.1)) ∧
      search_ship demoRatio demoStore ["search_ship", "zz"] =
        .ok ⟨some ("\n".intercalate ns),
          (if m = 0
           then ["\x27" ++ queryOf ["search_ship", "zz"]
                   ++ "\x27 ship not found."]
           else [])
            ++ ["Ship \x27" ++ queryOf ["search_ship", "zz"]
                  ++ "\x27 not found, do you mean:"]⟩ :=
  search_ship_recommendations demoRatio demoStore ["search_ship", "zz"]
    demoScores rfl (by decide) (by decide)

/-- C10: `top_countries` raises `ValueError` exactly when the parsed count
is 0 or -1; every other integer — including every other negative one — is
accepted, and a negative count acts as a negative Python slice bound: the
ranked country list is returned with its last `|n|` entries silently
dropped instead of reporting a positive-number error. -/
theorem top_countries_negative (ships : List Record) (n : Int)
    (hneg : n < 0) (hne1 : n ≠ -1) :
    top_countries ships n =
      .ok ("\n".intercalate
        (((sortDesc (countriesDictOf ships)).take
            ((sortDesc (countriesDictOf ships)).length - (-n).toNat)).map
          renderCountry)) ∧
    (∀ m : Int, (∃ e, top_countries ships m = .error e) ↔ (m = 0 ∨ m = -1)) := by
  constructor
  · have hcond : ¬(n = 0 ∨ n = -1) := by
      push_neg
      exact ⟨by omega, hne1⟩
    simp only [top_countries]
    rw [if_neg hcond]
    simp only [pySliceTo]
    rw [if_neg (by omega : ¬(0 : Int) ≤ n)]
  · intro m
    constructor
    · rintro ⟨e, he⟩
      by_contra hc
      simp only [top_countries] at he
      rw [if_neg hc] at he
      exact absurd he (by simp)
    · intro hc
      refine ⟨.valueError, ?_⟩
      simp only [top_countries]
      rw [if_pos hc]

/-- Witness for C10 at a five-record store with four distinct countries
and count -2: no error, and the two lowest-ranked countries are dropped. -/
theorem top_countries_negative_witness :
    top_countries countryStore (-2) =
      .ok ("\n".intercalate
        (((sortDesc (countriesDictOf countryStore)).take
            ((sortDesc (countriesDictOf countryStore)).length
              - (-(-2 : Int)).toNat)).map
          renderCountry)) ∧
    (∀ m : Int,
      (∃ e, top_countries countryStore m = .error e) ↔ (m = 0 ∨ m = -1)) :=
  top_countries_negative countryStore (-2) (by decide) (by decide)

end Titanic
